import Mathlib

/-!
Verification of the workload-optimization pipeline of the lvl.ai repository.

The frontend pipeline lives in `optimizeWorkload` and its helpers
(src/frontend/src/app/workload/page.tsx); the backend apply endpoint is the
`POST /apply-workload-optimization` handler
(src/backend/src/routes/organizerAgentRoutes.ts).  The TypeScript code is
shallowly embedded below: JavaScript runtime values that flow out of
`JSON.parse` are modelled by the inductive `Json`, JavaScript truthiness and
`String(...)` coercion by `truthy`/`jsToString`, and the platform pieces the
code calls (`JSON.parse`, `Date`, regex matching, `Array.prototype.sort`)
by executable Lean functions documented at their definitions.
-/

namespace LvlAi

/-! ## JavaScript value model -/

/-- A JavaScript value produced by `JSON.parse`.  Numbers are restricted to
integers: no numeric literal relevant to this pipeline carries a fractional
part, and no claim depends on float behaviour. -/
inductive Json where
  | null
  | bool (b : Bool)
  | num (n : Int)
  | str (s : String)
  | arr (elts : List Json)
  | obj (fields : List (String × Json))
deriving Inhabited

/-- JavaScript truthiness of a defined value. -/
def truthy : Json → Bool
  | .null => false
  | .bool b => b
  | .num n => n != 0
  | .str s => s != ""
  | .arr _ => true
  | .obj _ => true

/-- Truthiness of a possibly-undefined value (`none` = `undefined`). -/
def otruthy : Option Json → Bool
  | none => false
  | some v => truthy v

mutual

/-- JavaScript `String(v)` for a defined value.  Arrays stringify by joining
their elements with commas, objects as `[object Object]`. -/
def jsToString : Json → String
  | .null => "null"
  | .bool true => "true"
  | .bool false => "false"
  | .num n => toString n
  | .str s => s
  | .arr elts => jsListToString elts
  | .obj _ => "[object Object]"

/-- Comma-join of the stringified elements of an array, as
`Array.prototype.join` renders them: a `null` element joins as the empty
string (unlike the top-level `String(null)`). -/
def jsListToString : List Json → String
  | [] => ""
  | [Json.null] => ""
  | [x] => jsToString x
  | Json.null :: y :: xs => ("," ) ++ jsListToString (y :: xs)
  | x :: y :: xs => jsToString x ++ ("," ) ++ jsListToString (y :: xs)

end

/-- JavaScript `String(v)` where `v` may be `undefined` (`none`). -/
def ostr : Option Json → String
  | none => "undefined"
  | some v => jsToString v

/-- JavaScript `a || b` where `a` is a (possibly undefined) property read and
`b` a defined fallback. -/
def jsOrV (a : Option Json) (d : Json) : Json :=
  match a with
  | some v => if truthy v then v else d
  | none => d

/-- JavaScript property read `v[k]`: `undefined` unless `v` is an object with
the field.  On duplicate keys `JSON.parse` keeps the last binding, so the
last matching field wins. -/
def getProp : Json → String → Option Json
  | .obj fields, k => (fields.reverse.find? (fun p => p.1 == k)).map (·.2)
  | _, _ => none

/-! ## Calendar dates

`Date.prototype.toISOString().split('T')[0]` renders the UTC calendar date of
a millisecond timestamp; `new Date("YYYY-MM-DD")` parses a date-only ISO
string to UTC midnight.  Both directions are implemented with the standard
civil-calendar conversion (proleptic Gregorian, no leap seconds — exactly the
ECMAScript time value mapping). -/

def msPerDay : Int := 86400000

/-- Day number (days since 1970-01-01) of the civil date `y-m-d`. -/
def daysFromCivil (y m d : Int) : Int :=
  let y1 : Int := if m ≤ 2 then y - 1 else y
  let era : Int := y1.fdiv 400
  let yoe : Int := y1 - era * 400
  let mp : Int := (m + 9) % 12
  let doy : Int := (153 * mp + 2).fdiv 5 + d - 1
  let doe : Int := yoe * 365 + yoe.fdiv 4 - yoe.fdiv 100 + doy
  era * 146097 + doe - 719468

/-- Civil date `(y, m, d)` of a day number. -/
def civilFromDays (z0 : Int) : Int × Int × Int :=
  let z : Int := z0 + 719468
  let era : Int := z.fdiv 146097
  let doe : Int := z - era * 146097
  let yoe : Int := (doe - doe.fdiv 1460 + doe.fdiv 36524 - doe.fdiv 146096).fdiv 365
  let y : Int := yoe + era * 400
  let doy : Int := doe - (365 * yoe + yoe.fdiv 4 - yoe.fdiv 100)
  let mp : Int := (5 * doy + 2).fdiv 153
  let d : Int := doy - (153 * mp + 2).fdiv 5 + 1
  let m : Int := mp + (if mp < 10 then 3 else -9)
  (if m ≤ 2 then y + 1 else y, m, d)

/-- Left-pad the decimal rendering of a nonnegative integer to `w` digits. -/
def padNum (w : Nat) (n : Int) : String :=
  let s := toString n.toNat
  let pad := w - s.length
  String.mk (List.replicate pad ('0')) ++ s

/-- The `YYYY-MM-DD` part of `toISOString` of a millisecond timestamp. -/
def toISODateString (ms : Int) : String :=
  match civilFromDays (ms.fdiv msPerDay) with
  | (y, m, d) => padNum 4 y ++ ("-") ++ padNum 2 m ++ ("-") ++ padNum 2 d

def isDigitChar (c : Char) : Bool := ('0' ≤ c) && (c ≤ '9')

def digitVal (c : Char) : Int := Int.ofNat (c.toNat - ('0').toNat)

/-- Number of days in month `m` of year `y` (proleptic Gregorian). -/
def daysInMonth (y m : Int) : Int :=
  if m == 2 then
    if y % 4 == 0 && (y % 100 != 0 || y % 400 == 0) then 29 else 28
  else if m == 4 || m == 6 || m == 9 || m == 11 then 30
  else 31

/-- Model of `new Date(s).getTime()` for the date-only ISO format
`YYYY-MM-DD` (the only format this pipeline instructs the model to emit and
the only one ECMAScript parses portably): `none` stands for an invalid date
(`NaN` time value), which is what out-of-range components yield. -/
def parseDateMs (s : String) : Option Int :=
  match s.data with
  | [y1, y2, y3, y4, h1, m1, m2, h2, d1, d2] =>
    if isDigitChar y1 && isDigitChar y2 && isDigitChar y3 && isDigitChar y4 &&
       h1 == '-' && isDigitChar m1 && isDigitChar m2 &&
       h2 == '-' && isDigitChar d1 && isDigitChar d2 then
      let y := ((digitVal y1 * 10 + digitVal y2) * 10 + digitVal y3) * 10 + digitVal y4
      let m := digitVal m1 * 10 + digitVal m2
      let d := digitVal d1 * 10 + digitVal d2
      if 1 ≤ m && m ≤ 12 && 1 ≤ d && d ≤ daysInMonth y m then
        some (daysFromCivil y m d * msPerDay)
      else none
    else none
  | _ => none

/-- Model of `new Date(v)` applied to a raw JSON field: a number is taken as
a millisecond timestamp, a string is parsed as a calendar date, and the
remaining shapes (booleans, arrays, objects) are modelled as invalid dates. -/
def jsDateOf : Json → Option Int
  | .num n => some n
  | .str s => parseDateMs s
  | _ => none

/-! ## A model of `JSON.parse`

Executable recursive-descent parser for the JSON grammar, with two
restrictions recorded at `Json`: numbers must be integers (a fractional part
or exponent makes the parse fail) and `\u` string escapes are not modelled.
Everything else — whitespace, nesting, the leading-zero rule, control
characters and escapes in strings, trailing-comma rejection — follows the
grammar `JSON.parse` implements. -/

def isJsonWs (c : Char) : Bool := c == ' ' || c == '\t' || c == '\n' || c == '\r'

def dropJsonWs : List Char → List Char
  | [] => []
  | c :: cs => if isJsonWs c then dropJsonWs cs else c :: cs

/-- Parse the remainder of a JSON string literal (after the opening quote). -/
def pStringBody (fuel : Nat) (cs : List Char) (acc : List Char) : Option (String × List Char) :=
  match fuel, cs with
  | 0, _ => none
  | _, [] => none
  | fuel + 1, c :: rest =>
    if c == '"' then some (String.mk acc.reverse, rest)
    else if c == '\\' then
      match rest with
      | [] => none
      | e :: rest2 =>
        if e == '"' then pStringBody fuel rest2 ('"' :: acc)
        else if e == '\\' then pStringBody fuel rest2 ('\\' :: acc)
        else if e == '/' then pStringBody fuel rest2 ('/' :: acc)
        else if e == 'n' then pStringBody fuel rest2 ('\n' :: acc)
        else if e == 't' then pStringBody fuel rest2 ('\t' :: acc)
        else if e == 'r' then pStringBody fuel rest2 ('\r' :: acc)
        else if e == 'b' then pStringBody fuel rest2 ('\x08' :: acc)
        else if e == 'f' then pStringBody fuel rest2 ('\x0c' :: acc)
        else none
    else if c.toNat < 32 then none
    else pStringBody fuel rest (c :: acc)

def takeDigits : List Char → List Char × List Char
  | [] => ([], [])
  | c :: cs =>
    if isDigitChar c then
      let p := takeDigits cs
      (c :: p.1, p.2)
    else ([], c :: cs)

def digitsToInt (ds : List Char) : Int := ds.foldl (fun acc c => acc * 10 + digitVal c) 0

/-- Parse a JSON number; fractional parts and exponents are outside the
integer model and fail. -/
def pNumber (cs : List Char) : Option (Json × List Char) :=
  let neg : Bool := cs.head? == some ('-')
  let cs1 := if neg then cs.drop 1 else cs
  match takeDigits cs1 with
  | ([], _) => none
  | (ds, rest) =>
    if ds.length > 1 && ds.head? == some ('0') then none
    else
      match rest.head? with
      | some c =>
        if c == '.' || c == 'e' || c == 'E' then none
        else some (.num (if neg then -(digitsToInt ds) else digitsToInt ds), rest)
      | none => some (.num (if neg then -(digitsToInt ds) else digitsToInt ds), rest)

mutual

/-- Parse one JSON value, leading whitespace allowed. -/
def pValue : Nat → List Char → Option (Json × List Char)
  | 0, _ => none
  | fuel + 1, cs0 =>
    let cs := dropJsonWs cs0
    match cs with
    | [] => none
    | c :: rest =>
      if c == '"' then (pStringBody (rest.length + 1) rest []).map (fun p => (Json.str p.1, p.2))
      else if c == '{' then pObjFields fuel (dropJsonWs rest) true
      else if c == '[' then pArrElems fuel (dropJsonWs rest) true
      else if ("null").data.isPrefixOf cs then some (.null, cs.drop 4)
      else if ("true").data.isPrefixOf cs then some (.bool true, cs.drop 4)
      else if ("false").data.isPrefixOf cs then some (.bool false, cs.drop 5)
      else pNumber cs

/-- Parse array elements up to and including the closing bracket; whitespace
before the first token is already consumed.  `isFirst` tells whether an
immediate `]` (empty array) is allowed. -/
def pArrElems : Nat → List Char → Bool → Option (Json × List Char)
  | 0, _, _ => none
  | fuel + 1, cs, isFirst =>
    match cs with
    | [] => none
    | c :: rest =>
      if c == ']' && isFirst then some (.arr [], rest)
      else
        match pValue fuel cs with
        | none => none
        | some (v, rest1) =>
          match dropJsonWs rest1 with
          | ',' :: rest2 =>
            match pArrElems fuel (dropJsonWs rest2) false with
            | some (.arr vs, rest3) => some (.arr (v :: vs), rest3)
            | _ => none
          | ']' :: rest2 => some (.arr [v], rest2)
          | _ => none

/-- Parse object members up to and including the closing brace; whitespace
before the first token is already consumed. -/
def pObjFields : Nat → List Char → Bool → Option (Json × List Char)
  | 0, _, _ => none
  | fuel + 1, cs, isFirst =>
    match cs with
    | [] => none
    | c :: rest =>
      if c == '}' && isFirst then some (.obj [], rest)
      else if c == '"' then
        match pStringBody (rest.length + 1) rest [] with
        | none => none
        | some (k, rest1) =>
          match dropJsonWs rest1 with
          | ':' :: rest2 =>
            match pValue fuel rest2 with
            | none => none
            | some (v, rest3) =>
              match dropJsonWs rest3 with
              | ',' :: rest4 =>
                match pObjFields fuel (dropJsonWs rest4) false with
                | some (.obj fs, rest5) => some (.obj ((k, v) :: fs), rest5)
                | _ => none
              | '}' :: rest4 => some (.obj [(k, v)], rest4)
              | _ => none
          | _ => none
      else none

end

/-- Model of `JSON.parse`: parse one value, allow trailing whitespace,
reject anything left over.  `none` models a thrown `SyntaxError`. -/
def parseJson (s : String) : Option Json :=
  let cs := s.data
  match pValue (2 * cs.length + 2) cs with
  | some (v, rest) => if (dropJsonWs rest).isEmpty then some v else none
  | none => none

/-! ## The three extraction regexes

`optimizeWorkload` locates a JSON span with three regexes tried in order
(page.tsx lines 1038-1064).  Each is modelled by an executable leftmost-match
scanner; the analysis of the lazy/greedy quantifiers involved is recorded at
each definition.  `\s` is modelled by its ASCII subset. -/

def isWsJs (c : Char) : Bool :=
  c == ' ' || c == '\t' || c == '\n' || c == '\r' || c == '\x0b' || c == '\x0c'

def charAt (cs : List Char) (i : Nat) : Option Char := (cs.drop i).head?

def hasPrefixAt (cs pat : List Char) (i : Nat) : Bool := pat.isPrefixOf (cs.drop i)

def skipWsAux (cs : List Char) : Nat → Nat → Nat
  | 0, i => i
  | fuel + 1, i =>
    match charAt cs i with
    | some c => if isWsJs c then skipWsAux cs fuel (i + 1) else i
    | none => i

/-- First index `≥ i` holding a non-whitespace character (or the end). -/
def skipWsFrom (cs : List Char) (i : Nat) : Nat := skipWsAux cs cs.length i

/-- Least index `j ≥ i` with `p j`, scanning `fuel` positions. -/
def scanAux (p : Nat → Bool) : Nat → Nat → Option Nat
  | 0, _ => none
  | fuel + 1, i => if p i then some i else scanAux p fuel (i + 1)

/-- Leftmost occurrence of `pat` at an index `≥ i`. -/
def findFrom (cs pat : List Char) (i : Nat) : Option Nat :=
  scanAux (fun j => hasPrefixAt cs pat j) (cs.length + 1 - i) i

/-- Leftmost occurrence of character `c` at an index `≥ i`. -/
def findCharFrom (cs : List Char) (c : Char) (i : Nat) : Option Nat :=
  scanAux (fun j => charAt cs j == some c) (cs.length + 1 - i) i

/-- Last occurrence of character `c`. -/
def findLastCharIdx (cs : List Char) (c : Char) : Option Nat :=
  (List.range cs.length).foldl (fun acc j => if charAt cs j == some c then some j else acc) none

def fenceLit : List Char := ("```").data

/-- Does `\s*`+"```"+`` match right after index `j`?  (`\s*` is greedy, but a
backtick is not whitespace, so consuming the maximal run is exact.) -/
def fenceAfter (cs : List Char) (j : Nat) : Bool :=
  hasPrefixAt cs fenceLit (skipWsFrom cs (j + 1))

/-- Smallest `j ≥ i` where `}` is followed by `\s*`+"```": the lazy
`[\s\S]*?` in pattern 1 extends exactly to the first such closing brace. -/
def findCloseFrom (cs : List Char) (i : Nat) : Option Nat :=
  scanAux (fun j => charAt cs j == some ('}') && fenceAfter cs j) (cs.length + 1 - i) i

/-- Anchored attempt of pattern 1 at index `s`.
The regex (with fences f = three backticks) is `f(?:json)?\s*(\{[\s\S]*?\})\s*f`:
the optional `json`, the whitespace runs and the lazy body are each
deterministic against the literal that follows them, so the attempt needs no
further backtracking.  Returns `(matchStart, matchEnd, groupStart, groupEnd)`. -/
def tryPat1At (cs : List Char) (s : Nat) : Option (Nat × Nat × Nat × Nat) :=
  if hasPrefixAt cs fenceLit s then
    let p1 := s + 3
    let p2 := if hasPrefixAt cs (("json").data) p1 then p1 + 4 else p1
    let p3 := skipWsFrom cs p2
    if charAt cs p3 == some ('{') then
      match findCloseFrom cs (p3 + 1) with
      | some cIdx => some (s, skipWsFrom cs (cIdx + 1) + 3, p3, cIdx + 1)
      | none => none
    else none
  else none

/-- First index at which `f : Nat → Option α` succeeds, scanning upward. -/
def firstSomeAux (f : Nat → Option α) : Nat → Nat → Option α
  | 0, _ => none
  | fuel + 1, i =>
    match f i with
    | some r => some r
    | none => firstSomeAux f fuel (i + 1)

/-- Leftmost match of pattern 1. -/
def pat1Find (cs : List Char) : Option (Nat × Nat × Nat × Nat) :=
  firstSomeAux (tryPat1At cs) (cs.length + 1) 0

def keyLit : List Char := ("\"recommendations\"").data

/-- Anchored attempt of pattern 2, `\{[\s\S]*?"recommendations"[\s\S]*?\}`,
at index `i`.  Both lazy gaps resolve to the earliest following occurrence:
if no `}` follows the earliest key occurrence then none follows a later one,
so backtracking over the first gap never changes the outcome. -/
def tryPat2At (cs : List Char) (i : Nat) : Option (Nat × Nat) :=
  if charAt cs i == some ('{') then
    match findFrom cs keyLit (i + 1) with
    | some q =>
      match findCharFrom cs ('}') (q + keyLit.length) with
      | some c => some (i, c + 1)
      | none => none
    | none => none
  else none

/-- Leftmost match of pattern 2. -/
def pat2Find (cs : List Char) : Option (Nat × Nat) :=
  firstSomeAux (tryPat2At cs) (cs.length + 1) 0

/-- Leftmost match of pattern 3, `\{[\s\S]*\}`: from the first `{`, the
greedy body backtracks to the last `}` of the whole text; if the first `{`
has no `}` after it then no later `{` does either. -/
def pat3Find (cs : List Char) : Option (Nat × Nat) :=
  match findCharFrom cs ('{') 0 with
  | some i =>
    match findLastCharIdx cs ('}') with
    | some j => if i < j then some (i, j + 1) else none
    | none => none
  | none => none

def listSub (cs : List Char) (i j : Nat) : List Char := (cs.take j).drop i

def strSub (cs : List Char) (i j : Nat) : String := String.mk (listSub cs i j)

/-- Pattern 1 as (captured group, full match) strings. -/
def pat1Str (text : String) : Option (String × String) :=
  match pat1Find text.data with
  | some (ms, me, gs, ge) => some (strSub text.data gs ge, strSub text.data ms me)
  | none => none

/-- Pattern 2 as a matched string. -/
def pat2Str (text : String) : Option String :=
  (pat2Find text.data).map fun r => strSub text.data r.1 r.2

/-- Pattern 3 as a matched string. -/
def pat3Str (text : String) : Option String :=
  (pat3Find text.data).map fun r => strSub text.data r.1 r.2

/-- The JSON-span search of `optimizeWorkload` (page.tsx lines 1034-1064):
pattern 1 (fenced block, captured group as `jsonString`, full match as
`jsonMatch`), and — only when no earlier pattern produced a match — pattern 2
(first object mentioning `"recommendations"`) and then pattern 3 (first `{`
to last `}`), each using its full match for both strings.  Returns
`(jsonString, jsonMatch)`. -/
def findJson (text : String) : Option (String × String) :=
  match pat1Str text with
  | some r => some r
  | none =>
    match pat2Str text with
    | some m => some (m, m)
    | none =>
      match pat3Str text with
      | some m => some (m, m)
      | none => none

def trimChars (cs : List Char) : List Char :=
  ((cs.dropWhile isWsJs).reverse.dropWhile isWsJs).reverse

/-- Replace of `/^```json\s*/i` by the empty string (at most one match). -/
def stripFenceJsonHead (cs : List Char) : List Char :=
  if hasPrefixAt cs fenceLit 0 then
    match cs.drop 3 with
    | a :: b :: c :: d :: rest2 =>
      if a.toLower == 'j' && b.toLower == 's' && c.toLower == 'o' && d.toLower == 'n' then
        rest2.dropWhile isWsJs
      else cs
    | _ => cs
  else cs

/-- Replace of `/^```\s*/` by the empty string. -/
def stripFenceHead (cs : List Char) : List Char :=
  if hasPrefixAt cs fenceLit 0 then (cs.drop 3).dropWhile isWsJs else cs

/-- Replace of `/\s*```$/` by the empty string. -/
def stripFenceTail (cs : List Char) : List Char :=
  let rev := cs.reverse
  if hasPrefixAt rev fenceLit 0 then ((rev.drop 3).dropWhile isWsJs).reverse else cs

/-- The clean-up applied to the extracted span before `JSON.parse`
(page.tsx lines 1066-1070): trim, then strip leading/trailing fences. -/
def cleanJson (s : String) : String :=
  String.mk (stripFenceTail (stripFenceHead (stripFenceJsonHead (trimChars s.data))))

def splitCharAux (sep : Char) : List Char → List Char → List String
  | [], acc => [String.mk acc.reverse]
  | c :: cs, acc =>
    if c == sep then String.mk acc.reverse :: splitCharAux sep cs []
    else splitCharAux sep cs (c :: acc)

/-- JavaScript `String.prototype.split` with a one-character separator. -/
def jsSplitChar (s : String) (sep : Char) : List String := splitCharAux sep s.data []

/-- JavaScript `String.prototype.trim` (ASCII whitespace). -/
def jsTrim (s : String) : String := String.mk (trimChars s.data)

/-! ## Candidate selection (page.tsx lines 950-989) -/

/-- The `TaskStatus` enumeration of the Task model (spec §3: pending /
in-progress / completed; `models/Task.ts` itself is outside `src/`). -/
inductive TaskStatus where
  | pending
  | inProgress
  | completed
deriving DecidableEq

/-- A stored task as `optimizeWorkload` reads it (the `TaskContext` shape,
projected to the fields the function uses: `id`, `title`, `priority`,
`status`, `dueDate`).  `priority` is kept as its string value, since the code
indexes `priorityOrder` with it and defaults unknown strings to rank 0;
`dueDate` is the millisecond timestamp of the stored `Date`. -/
structure Task where
  id : String
  title : String
  priority : String
  status : TaskStatus
  dueDate : Option Int
deriving DecidableEq

def isPendingOrInProgress (t : Task) : Bool :=
  t.status == TaskStatus.pending || t.status == TaskStatus.inProgress

/-- The `priorityOrder` table with the `|| 0` fallback for unknown keys. -/
def priorityRank (p : String) : Int :=
  if p == "urgent" then 4
  else if p == "high" then 3
  else if p == "medium" then 2
  else if p == "low" then 1
  else 0

/-- The sort comparator of page.tsx lines 960-974. -/
def cmpTasks (a b : Task) : Int :=
  let priorityDiff := priorityRank b.priority - priorityRank a.priority
  if priorityDiff != 0 then priorityDiff
  else
    match a.dueDate, b.dueDate with
    | some x, some y => x - y
    | some _, none => -1
    | none, some _ => 1
    | none, none => 0

/-- `Array.prototype.sort` keeps `a` before `b` when the comparator is
nonpositive; ES2019 requires the sort to be stable, which `mergeSort` with
this relation implements. -/
def leTaskB (a b : Task) : Bool := decide (cmpTasks a b ≤ 0)

/-- Filter to pending/in-progress and stable-sort by the comparator. -/
def sortPending (tasks : List Task) : List Task :=
  (tasks.filter isPendingOrInProgress).mergeSort leTaskB

/-- JavaScript `slice(0, e)` (a negative end counts from the end). -/
def jsSliceEnd (l : List α) (e : Int) : List α :=
  if e < 0 then l.take (((l.length : Int) + e).toNat) else l.take e.toNat

/-- The candidate list: filter, stable sort, truncate (lines 956-975). -/
def selectCandidates (tasks : List Task) (maxTasks : Int) : List Task :=
  jsSliceEnd (sortPending tasks) maxTasks

/-- JavaScript `x || d` for an optional numeric option (`0` is falsy). -/
def jsNumOr (o : Option Int) (d : Int) : Int :=
  match o with
  | some n => if n == 0 then d else n
  | none => d

/-- One line of the task list given to the model (lines 977-981). -/
def taskLine (idx : Nat) (t : Task) : String :=
  let dueDateStr := match t.dueDate with
    | some ms => toISODateString ms
    | none => "No due date"
  toString (idx + 1) ++ (". [ID: ") ++ t.id ++ ("] \"") ++ t.title ++
    ("\" - Priority: ") ++ t.priority ++ (", Due: ") ++ dueDateStr

def buildTaskList (tasks : List Task) : String :=
  String.intercalate ("\n") (tasks.enum.map fun p => taskLine p.1 p.2)

/-- The optimization prompt (lines 991-1017). -/
def buildPrompt (days : Int) (count : Nat) (taskList : String) : String :=
  ("Analyze these ") ++ toString count ++
  (" tasks and redistribute them to balance workload over the next ") ++ toString days ++
  (" days.\n\nTASKS:\n") ++ taskList ++
  ("\n\nYou MUST respond with ONLY this JSON format (no other text):\n\x7b\n  \"recommendations\": [\n    \x7b\n      \"taskId\": \"exact_id_from_list\",\n      \"taskTitle\": \"exact title\",\n      \"currentDueDate\": \"YYYY-MM-DD or null\",\n      \"suggestedDueDate\": \"YYYY-MM-DD\",\n      \"currentPriority\": \"low/medium/high/urgent\",\n      \"suggestedPriority\": \"low/medium/high/urgent\",\n      \"reason\": \"reason\"\n    \x7d\n  ]\n\x7d\n\nCRITICAL RULES:\n- Find tasks on overloaded days (5+ tasks) and move some to lighter days (1-2 tasks)\n- Schedule tasks with \"No due date\" to balance workload\n- Prioritize overdue tasks (negative days)\n- Suggested dates must be YYYY-MM-DD format within next ") ++ toString days ++
  (" days\n- Include at least 5-10 recommendations if there are imbalances\n- Return ONLY the JSON, no markdown, no code blocks, no explanations")

/-! ## Recommendation extraction (page.tsx lines 1025-1178) -/

/-- The runtime shape of an extracted recommendation.  The TypeScript
interface declares `taskTitle` and `reason` as strings, but the code stores
the model's raw field when truthy without a `String(...)` coercion, so those
two fields are kept as raw `Json` values. -/
structure TaskRecommendation where
  taskId : String
  taskTitle : Json
  currentDueDate : Option Int
  suggestedDueDate : Option Int
  currentPriority : String
  suggestedPriority : Option String
  reason : Json

structure WorkloadOptimizationResult where
  analysis : String
  recommendations : List TaskRecommendation
  summary : String

/-- JavaScript `toLowerCase` (ASCII). -/
def toLowerJs (s : String) : String := String.mk (s.data.map Char.toLower)

/-- Lines 1109-1120: `suggestedDueDate` — parse the field when truthy,
`null` when absent, falsy, or an invalid date. -/
def suggestedDateOf (rec : Json) : Option Int :=
  match getProp rec ("suggestedDueDate") with
  | some v => if truthy v then jsDateOf v else none
  | none => none

/-- Lines 1122-1125: `hasDateChange` — compare the date-only renderings of
the task's stored due date and the parsed suggestion (`null` on either side
when absent). -/
def hasDateChangeB (originalTask : Task) (rec : Json) : Bool :=
  (originalTask.dueDate.map toISODateString) != ((suggestedDateOf rec).map toISODateString)

/-- Lines 1127-1129: `hasPriorityChange` — a truthy `suggestedPriority` that
differs case-insensitively from `rec.currentPriority || originalTask.priority`. -/
def hasPriorityChangeB (originalTask : Task) (rec : Json) : Bool :=
  otruthy (getProp rec ("suggestedPriority")) &&
    (toLowerJs (jsToString (jsOrV (getProp rec ("currentPriority")) (.str originalTask.priority))) !=
     toLowerJs (ostr (getProp rec ("suggestedPriority"))))

/-- Lines 1137-1145: the emitted record for a retained entry. -/
def buildRec (originalTask : Task) (rec : Json) : TaskRecommendation :=
  { taskId := jsToString (jsOrV (getProp rec ("taskId")) (.str originalTask.id))
    taskTitle := jsOrV (getProp rec ("taskTitle")) (jsOrV (some (.str originalTask.title)) (.str ""))
    currentDueDate := originalTask.dueDate
    suggestedDueDate := suggestedDateOf rec
    currentPriority :=
      jsToString (jsOrV (some (jsOrV (getProp rec ("currentPriority")) (.str originalTask.priority))) (.str "medium"))
    suggestedPriority :=
      if otruthy (getProp rec ("suggestedPriority")) then some (ostr (getProp rec ("suggestedPriority")))
      else none
    reason := jsOrV (getProp rec ("reason")) (.str "Balance workload distribution") }

/-- The validation/normalization of one entry of the `recommendations` array
(the `.map` callback, lines 1092-1146): resolve the original task
(`currentDueDate`/the comparison's stored side come from it), detect a
change, and build the output record; `none` models the `null` returns. -/
def mapEntry (pendingTasks : List Task) (rec : Json) : Option TaskRecommendation :=
  match pendingTasks.find? (fun t => t.id == ostr (getProp rec ("taskId"))) with
  | none => none
  | some originalTask =>
    if !hasDateChangeB originalTask rec && !hasPriorityChangeB originalTask rec then none
    else some (buildRec originalTask rec)

/-- The candidate-id set `validTaskIds` (line 1080). -/
def validTaskIdsOf (pendingTasks : List Task) : List String :=
  pendingTasks.map (fun t => t.id)

/-- The `.filter` guard of lines 1084-1091: keep an entry iff
`String(rec.taskId || '')` is a candidate id. -/
def keepsValidId (pendingTasks : List Task) (rec : Json) : Bool :=
  (validTaskIdsOf pendingTasks).contains (jsToString (jsOrV (getProp rec ("taskId")) (.str "")))

/-- Lines 1083-1147: filter on candidate ids, map each entry through the
validator, drop the `null` results. -/
def processRecs (pendingTasks : List Task) (recsJson : List Json) : List TaskRecommendation :=
  ((recsJson.filter (keepsValidId pendingTasks)).map (mapEntry pendingTasks)).reduceOption

/-- Lines 1025-1178: locate a JSON span, clean it, parse it, validate the
`recommendations` array, and split the response around the first character of
the matched span (the code splits on `jsonMatch[0]`, the match's first
character) into analysis/summary.  Every failure path degrades to
`{analysis: aiResponse, recommendations: [], summary: ""}`; the function is
total, modelling the catch-all `try/catch`. -/
def extractRecommendations (aiResponse : String) (pendingTasks : List Task) : WorkloadOptimizationResult :=
  match findJson aiResponse with
  | none => ⟨aiResponse, [], ""⟩
  | some (jsonString, jsonMatch) =>
    match parseJson (cleanJson jsonString) with
    | none => ⟨aiResponse, [], ""⟩
    | some jsonData =>
      match getProp jsonData ("recommendations") with
      | some (Json.arr recsJson) =>
        let recommendations := processRecs pendingTasks recsJson
        match jsonMatch.data with
        | [] => ⟨aiResponse, recommendations, ""⟩
        | c :: _ =>
          let parts := jsSplitChar aiResponse c
          let analysis := ((parts.get? 0).map jsTrim).getD ""
          let summary := ((parts.get? 1).map jsTrim).getD ""
          ⟨analysis, recommendations, summary⟩
      | _ => ⟨aiResponse, [], ""⟩

/-- The whole of `optimizeWorkload` (lines 950-1179) over a store snapshot:
`tasks` is what `retrieveUserTasks` returned, `oracle` stands for
`chatWithOrganizer` (prompt to reply text), and the second component records
whether the Model Gateway was invoked at all. -/
def optimizeWorkload (tasks : List Task) (daysOpt maxTasksOpt : Option Int)
    (oracle : String → String) : WorkloadOptimizationResult × Bool :=
  let days := jsNumOr daysOpt 7
  let maxTasks := jsNumOr maxTasksOpt 15
  let pendingTasks := selectCandidates tasks maxTasks
  let taskList := buildTaskList pendingTasks
  if pendingTasks.length == 0 then
    (⟨"No pending tasks found to optimize.", [], ""⟩, false)
  else
    let prompt := buildPrompt days pendingTasks.length taskList
    (extractRecommendations (oracle prompt) pendingTasks, true)

/-! ## The apply endpoint (organizerAgentRoutes.ts lines 398-479)

The Task Store is external to the repository (spec §2); it is modelled as the
list of task records, looked up by id scoped to the owning user.  The record
fields are modelled from the spec: identifier, title, optional description,
priority, status, optional due date, optional completion date, point value,
tags, owning user id (spec §3; `models/Task.ts` is not under `src/`).
`findByIdAndUpdate` with an update document touching only `dueDate` and
`priority` rewrites exactly those two paths. -/

/-- A JavaScript `Date` as stored by the endpoint: `new Date(s)` of an
unparseable string is an *invalid* date object, not an absent value. -/
inductive JsDateV where
  | valid (ms : Int)
  | invalid
deriving DecidableEq

structure BTask where
  id : String
  userId : String
  title : String
  description : Option String
  status : String
  priority : String
  dueDate : Option JsDateV
  completedAt : Option Int
  points : Int
  tags : List String
deriving DecidableEq

/-- One element of the request's `recommendations` array, in the shape the
endpoint reads (`taskId`, optional `suggestedDueDate`/`suggestedPriority`). -/
structure ApplyRec where
  taskId : String
  suggestedDueDate : Option String
  suggestedPriority : Option String
deriving DecidableEq

/-- Truthiness of an optional string field (absent and `""` are falsy). -/
def strTruthy : Option String → Bool
  | none => false
  | some s => s != ""

/-- `new Date(s)` for the stored update value. -/
def jsNewDate (s : String) : JsDateV :=
  match parseDateMs s with
  | some n => .valid n
  | none => .invalid

/-- `Task.findOne({_id: rec.taskId, userId})` succeeds? -/
def foundB (userId : String) (store : List BTask) (rec : ApplyRec) : Bool :=
  (store.find? (fun t => t.id == rec.taskId && t.userId == userId)).isSome

/-- The update document applied by `findByIdAndUpdate` (lines 441-456):
set `dueDate` and/or `priority` when supplied, touch nothing else. -/
def applyUpdate (rec : ApplyRec) (t : BTask) : BTask :=
  { t with
    dueDate :=
      if strTruthy rec.suggestedDueDate then some (jsNewDate (rec.suggestedDueDate.getD ""))
      else t.dueDate
    priority :=
      if strTruthy rec.suggestedPriority then rec.suggestedPriority.getD ""
      else t.priority }

/-- The per-item error string of line 437. -/
def notFoundMsg (rec : ApplyRec) : String := ("Task ") ++ rec.taskId ++ (" not found")

/-- `Task.findByIdAndUpdate(rec.taskId, updateData)` over the store: rewrite
the task(s) with that id, touching only the updated paths. -/
def updMap (rec : ApplyRec) (store : List BTask) : List BTask :=
  store.map (fun t => if t.id == rec.taskId then applyUpdate rec t else t)

/-- One iteration of the apply loop (lines 429-462): look the task up scoped
to the user; on a miss record `Task <id> not found` and continue; on a hit
update the task only when at least one suggestion is supplied (the update is
pushed onto `updatedTasks`, counted here as 1). -/
def applyRecStep (userId : String) (store : List BTask) (rec : ApplyRec) :
    List BTask × Nat × List String :=
  match store.find? (fun t => t.id == rec.taskId && t.userId == userId) with
  | none => (store, 0, [notFoundMsg rec])
  | some _ =>
    if strTruthy rec.suggestedDueDate || strTruthy rec.suggestedPriority then
      (updMap rec store, 1, [])
    else (store, 0, [])

/-- Threading of one loop iteration through the accumulated
`(store, updatedTasks.length, errors_list)` state. -/
def applyFoldStep (userId : String) (acc : List BTask × Nat × List String)
    (rec : ApplyRec) : List BTask × Nat × List String :=
  match applyRecStep userId acc.1 rec with
  | (st, n, es) => (st, acc.2.1 + n, acc.2.2 ++ es)

/-- The whole apply endpoint batch: sequential fold, collecting the count of
updated tasks and the per-item error strings (lines 425-469). -/
def applyWorkload (userId : String) (store : List BTask) (recs : List ApplyRec) :
    List BTask × Nat × List String :=
  recs.foldl (applyFoldStep userId) (store, 0, [])

/-- The identity-and-ownership projection of a stored task, which no update
of this endpoint can change. -/
def idOwner (t : BTask) : String × String := (t.id, t.userId)

/-- The error list the batch produces: one `Task <id> not found` string per
entry whose ownership-scoped lookup fails, in batch order. -/
def errsOf (userId : String) (store : List BTask) (recs : List ApplyRec) : List String :=
  (recs.filter (fun r => !foundB userId store r)).map notFoundMsg

/-- The number of entries that actually update a task: found, with at least
one truthy suggestion. -/
def updCount (userId : String) (store : List BTask) (recs : List ApplyRec) : Nat :=
  (recs.filter (fun r => foundB userId store r &&
    (strTruthy r.suggestedDueDate || strTruthy r.suggestedPriority))).length

/-- A stored task owned by user `u1`, for witnesses. -/
def wbTask : BTask := ⟨"x1", "u1", "Report", none, "pending", "low", none, none, 10, []⟩

/-- A recommendation targeting the existing owned task, priority only. -/
def wbRecGood : ApplyRec := ⟨"x1", none, some ("high")⟩

/-- A recommendation targeting a nonexistent task id. -/
def wbRecBad : ApplyRec := ⟨"zz", some ("2024-01-02"), none⟩

/-- A recommendation with neither suggestion supplied. -/
def wbRecNoop : ApplyRec := ⟨"x1", none, none⟩

/-! ## The ordering the spec describes for candidate selection -/

/-- Due-date order as the claim states it: ascending dates, any date before
no date, absent equal to absent. -/
def dueLe : Option Int → Option Int → Prop
  | some x, some y => x ≤ y
  | some _, none => True
  | none, some _ => False
  | none, none => True

/-- The claimed sort order: strictly higher priority rank first
(urgent > high > medium > low), ties broken by `dueLe`. -/
def claimOrder (a b : Task) : Prop :=
  priorityRank b.priority < priorityRank a.priority ∨
  (priorityRank b.priority = priorityRank a.priority ∧ dueLe a.dueDate b.dueDate)

/-! ## Concrete fixtures for witnesses and counterexamples -/

/-- Demo tasks for the C6 witness: two equally-ordered pending tasks (same
priority, no due dates) around a completed one. -/
def demoTaskX : Task := ⟨"dx", "X", "medium", TaskStatus.pending, none⟩

def demoTaskY : Task := ⟨"dy", "Y", "medium", TaskStatus.pending, none⟩

def demoTaskZ : Task := ⟨"dz", "Z", "urgent", TaskStatus.completed, some 0⟩

def demoTasks : List Task := [demoTaskX, demoTaskZ, demoTaskY]


/-- A concrete pending task used by witnesses. -/
def wtPending : Task := ⟨"t1", "A", "low", TaskStatus.pending, none⟩

/-- A concrete completed task used by witnesses. -/
def wtDone : Task := ⟨"w1", "W", "high", TaskStatus.completed, none⟩

/-- A concrete model entry used by witnesses. -/
def wRec2 : Json := Json.obj [("taskId", Json.str ("t1")), ("suggestedPriority", Json.str ("high"))]

/-- A concrete stored task for the C3/C4 counterexamples: its stored
priority is `low`. -/
def ctTask : Task := ⟨"c1", "Write report", "low", TaskStatus.pending, none⟩

/-- A model entry echoing a *wrong* current priority (`high`) while
suggesting `low` — the stored value — and no due date. -/
def ctEntry3 : Json :=
  Json.obj [("taskId", Json.str ("c1")), ("currentPriority", Json.str ("high")),
    ("suggestedPriority", Json.str ("low"))]

/-- A no-change entry that echoes the stored priority truthfully, dropped by
the extractor. -/
def wEntry3 : Json :=
  Json.obj [("taskId", Json.str ("c1")), ("currentPriority", Json.str ("low")),
    ("suggestedPriority", Json.str ("LOW"))]

/-- A model entry echoing priority `HIGH` while the store holds `low`,
suggesting `urgent`. -/
def ctEntry4 : Json :=
  Json.obj [("taskId", Json.str ("c1")), ("currentPriority", Json.str ("HIGH")),
    ("suggestedPriority", Json.str ("urgent"))]

/-- A reply whose first strategy match (the fenced span) is unparseable
while the pattern-2 match parses: a parseable recommendations object,
followed by a fenced non-JSON span. -/
def cText5 : String := "\x7b\"recommendations\": []\x7d ```\x7bbad\x7d```"

/-! ## Helper lemmas -/

theorem mapEntry_resolves (tasks : List Task) (rec : Json) (r : TaskRecommendation)
    (h : mapEntry tasks rec = some r) :
    ∃ T, tasks.find? (fun t => t.id == ostr (getProp rec ("taskId"))) = some T ∧
      T ∈ tasks ∧ r = buildRec T rec := by
  cases hf : tasks.find? (fun t => t.id == ostr (getProp rec ("taskId"))) with
  | none => simp [mapEntry, hf] at h
  | some T =>
    refine ⟨T, rfl, List.mem_of_find?_eq_some hf, ?_⟩
    simp only [mapEntry, hf] at h
    by_cases hc : (!hasDateChangeB T rec && !hasPriorityChangeB T rec) <;> simp [hc] at h
    exact h.symm

theorem buildRec_taskId (T : Task) (rec : Json)
    (hpred : (T.id == ostr (getProp rec ("taskId"))) = true) :
    (buildRec T rec).taskId = T.id := by
  have hid : T.id = ostr (getProp rec ("taskId")) := by simpa using hpred
  cases hg : getProp rec ("taskId") with
  | none => simp [buildRec, jsOrV, hg, jsToString]
  | some v =>
    by_cases htr : truthy v
    · rw [hg] at hid
      simp only [buildRec, jsOrV, hg, htr, if_true]
      exact hid.symm
    · simp [buildRec, jsOrV, hg, htr, jsToString]

theorem mapEntry_some_iff (tasks : List Task) (rec : Json) (T : Task)
    (hf : tasks.find? (fun t => t.id == ostr (getProp rec ("taskId"))) = some T) :
    (mapEntry tasks rec).isSome = (hasDateChangeB T rec || hasPriorityChangeB T rec) := by
  simp only [mapEntry, hf]
  by_cases h1 : hasDateChangeB T rec <;> by_cases h2 : hasPriorityChangeB T rec <;>
    simp [h1, h2]

theorem extract_degrades (text : String) (tasks : List Task)
    (h : findJson text = none ∨
         ∃ p : String × String, findJson text = some p ∧ parseJson (cleanJson p.1) = none) :
    extractRecommendations text tasks = ⟨text, [], ""⟩ := by
  rcases h with h | ⟨⟨s, m⟩, h, hp⟩
  · simp [extractRecommendations, h]
  · simp [extractRecommendations, h, hp]

/-! ## Claim theorems -/

/-- C1: for every raw model-reply text and every candidate task list, the
recommendation-extraction step of `optimizeWorkload` never raises
(`extractRecommendations` is a total function); when the text contains no
parseable JSON — no pattern matches, or the selected span fails to parse —
the result is the degraded-success value: empty recommendations and the
original raw text as analysis. -/
theorem claim1_extractor_degrades (text : String) (tasks : List Task)
    (h : findJson text = none ∨
         ∃ p : String × String, findJson text = some p ∧ parseJson (cleanJson p.1) = none) :
    extractRecommendations text tasks = ⟨text, [], ""⟩ :=
  extract_degrades text tasks h

theorem claim1_witness :
    findJson ("The schedule already looks balanced; nothing to move.") = none ∧
    extractRecommendations ("The schedule already looks balanced; nothing to move.") [] =
      ⟨("The schedule already looks balanced; nothing to move."), [], ""⟩ :=
  ⟨by decide, claim1_extractor_degrades _ [] (Or.inl (by decide))⟩

theorem processRecs_taskId_subset (tasks : List Task) (recsJson : List Json) :
    ((processRecs tasks recsJson).map (fun r => r.taskId)) ⊆ (tasks.map (fun t => t.id)) := by
  intro x hx
  simp only [List.mem_map] at hx
  obtain ⟨r, hr, rfl⟩ := hx
  simp only [processRecs, List.reduceOption_mem_iff, List.mem_map] at hr
  obtain ⟨j, hj, hje⟩ := hr
  obtain ⟨T, hf, hT, rfl⟩ := mapEntry_resolves tasks j r hje
  have hpred : (T.id == ostr (getProp j ("taskId"))) = true := by
    simpa using List.find?_some hf
  rw [buildRec_taskId T j hpred]
  exact List.mem_map_of_mem _ hT

/-- C2: every recommendation that the extraction step outputs — for any
model-reply text whatsoever — carries a `taskId` belonging to a task of the
candidate list offered to the model (output task-id set ⊆ candidate task-id
set); the same holds for the entry processor on any entry list; and entries
are processed independently — dropping an invalid entry never disturbs the
rest of the batch (the processor is a homomorphism over list
concatenation). -/
theorem claim2_taskid_subset (tasks : List Task) (recsJson : List Json) :
    (∀ text : String,
      ((extractRecommendations text tasks).recommendations.map (fun r => r.taskId)) ⊆
        (tasks.map (fun t => t.id))) ∧
    ((processRecs tasks recsJson).map (fun r => r.taskId)) ⊆ (tasks.map (fun t => t.id)) ∧
    ∀ l1 l2 : List Json,
      processRecs tasks (l1 ++ l2) = processRecs tasks l1 ++ processRecs tasks l2 := by
  refine ⟨?_, processRecs_taskId_subset tasks recsJson, ?_⟩
  · intro text
    unfold extractRecommendations
    cases hfj : findJson text with
    | none => simp
    | some p =>
      cases p with
      | mk jsonString jsonMatch =>
        cases hp : parseJson (cleanJson jsonString) with
        | none => simp [hp]
        | some jsonData =>
          cases hg : getProp jsonData ("recommendations") with
          | none => simp [hp, hg]
          | some v =>
            cases v with
            | arr recs =>
              cases hjm : jsonMatch.data with
              | nil =>
                simp only [hp, hg, hjm]
                simpa using processRecs_taskId_subset tasks recs
              | cons c rest =>
                simp only [hp, hg, hjm]
                simpa using processRecs_taskId_subset tasks recs
            | null => simp [hp, hg]
            | bool b => simp [hp, hg]
            | num n => simp [hp, hg]
            | str s2 => simp [hp, hg]
            | obj fs => simp [hp, hg]
  · intro l1 l2
    simp [processRecs, List.filter_append, List.map_append, List.reduceOption_append]

theorem claim2_witness :
    ("t1" : String) ∈ [wtPending].map (fun t => t.id) :=
  (claim2_taskid_subset [wtPending] [wRec2]).2.1 (by decide)

/-- C7: an empty filtered-and-truncated candidate list short-circuits
`optimizeWorkload` to the exact "nothing to optimize" result, with the Model
Gateway not invoked (the result is independent of the oracle, and the
call-flag is false). -/
theorem claim7_short_circuit (tasks : List Task) (daysOpt maxTasksOpt : Option Int)
    (oracle : String → String)
    (h : selectCandidates tasks (jsNumOr maxTasksOpt 15) = []) :
    optimizeWorkload tasks daysOpt maxTasksOpt oracle =
      (⟨"No pending tasks found to optimize.", [], ""⟩, false) := by
  simp [optimizeWorkload, h]

/-- C3 counterexample: for the stored task `ctTask` (priority `low`, no due
date) and entry `ctEntry3` (suggests `low`, no date), the date-only
normalizations agree and the suggested priority equals the task's current
priority case-insensitively, so by the claim the entry proposes no actual
change and must be dropped — yet the extractor retains it, because the
change detection compares against the model's echoed `currentPriority`
(`high`), not the stored value. -/
theorem claim3_counterexample :
    ctTask.priority = "low" ∧
    toLowerJs ctTask.priority = toLowerJs (ostr (getProp ctEntry3 ("suggestedPriority"))) ∧
    ctTask.dueDate.map toISODateString = (suggestedDateOf ctEntry3).map toISODateString ∧
    (mapEntry [ctTask] ctEntry3).isSome = true :=
  ⟨rfl, by decide, by decide, by decide⟩

/-- C3 (amended): a validated entry is retained iff it proposes a change
relative to the baseline the code uses — the date-only normalization of the
stored due date differs from that of the parsed suggestion, or a truthy
`suggestedPriority` differs case-insensitively from the model's echoed
`currentPriority` when that is truthy, else from the stored priority.  In
particular, when the entry echoes the stored priority truthfully (or omits
it), a no-change entry is dropped, and a reply describing no changes yields
an empty list. -/
theorem claim3_retained_iff_change (tasks : List Task) (rec : Json) (T : Task)
    (hf : tasks.find? (fun t => t.id == ostr (getProp rec ("taskId"))) = some T) :
    (mapEntry tasks rec).isSome = true ↔
      ((T.dueDate.map toISODateString ≠ (suggestedDateOf rec).map toISODateString) ∨
       (otruthy (getProp rec ("suggestedPriority")) = true ∧
        toLowerJs (jsToString (jsOrV (getProp rec ("currentPriority")) (Json.str T.priority))) ≠
          toLowerJs (ostr (getProp rec ("suggestedPriority"))))) := by
  rw [mapEntry_some_iff tasks rec T hf]
  simp [hasDateChangeB, hasPriorityChangeB, Bool.or_eq_true, Bool.and_eq_true, bne_iff_ne]

theorem claim3_witness :
    (mapEntry [ctTask] wEntry3).isSome = false :=
  by
    have h := claim3_retained_iff_change [ctTask] wEntry3 ctTask (by decide)
    have h2 : ¬ ((ctTask.dueDate.map toISODateString ≠
          (suggestedDateOf wEntry3).map toISODateString) ∨
        (otruthy (getProp wEntry3 ("suggestedPriority")) = true ∧
         toLowerJs (jsToString (jsOrV (getProp wEntry3 ("currentPriority"))
            (Json.str ctTask.priority))) ≠
           toLowerJs (ostr (getProp wEntry3 ("suggestedPriority"))))) := by decide
    cases hb : (mapEntry [ctTask] wEntry3).isSome
    · rfl
    · exact absurd (h.mp hb) h2

/-- C4 counterexample: the emitted recommendation's `currentPriority` is the
model's echoed `HIGH`, not the stored task's `low` — the claim that current
fields are never taken from the model's echo is false. -/
theorem claim4_counterexample :
    ctTask.priority = "low" ∧
    (mapEntry [ctTask] ctEntry4).map (fun r => r.currentPriority) = some ("HIGH") :=
  ⟨rfl, by decide⟩

/-- C4 (amended): `currentDueDate` is indeed resolved from the stored task
(both in the emitted record and, via `hasDateChangeB`, in the change
comparison); `currentPriority` however prefers the model's echoed value —
the stored priority (with the `'medium'` default) is used only when the echo
is absent or falsy. -/
theorem claim4_ground_truth (tasks : List Task) (rec : Json) (r : TaskRecommendation) (T : Task)
    (hf : tasks.find? (fun t => t.id == ostr (getProp rec ("taskId"))) = some T)
    (h : mapEntry tasks rec = some r) :
    r.currentDueDate = T.dueDate ∧
    (otruthy (getProp rec ("currentPriority")) = false →
      r.currentPriority = jsToString (jsOrV (some (Json.str T.priority)) (Json.str ("medium")))) ∧
    (∀ v, getProp rec ("currentPriority") = some v → truthy v = true →
      r.currentPriority = jsToString v) := by
  obtain ⟨T2, hf2, hT2, rfl⟩ := mapEntry_resolves tasks rec r h
  rw [hf] at hf2
  injection hf2 with he
  subst he
  refine ⟨by simp [buildRec], ?_, ?_⟩
  · intro hecho
    cases hg : getProp rec ("currentPriority") with
    | none => simp [buildRec, jsOrV, hg]
    | some v =>
      rw [hg] at hecho
      simp only [otruthy] at hecho
      simp [buildRec, jsOrV, hg, hecho]
  · intro v hg htr
    by_cases hm : truthy (Json.str ("medium")) = true <;>
      simp [buildRec, jsOrV, hg, htr]

theorem claim4_witness :
    (mapEntry [ctTask] ctEntry4).map (fun r => r.currentDueDate) = some none := by
  cases hb : mapEntry [ctTask] ctEntry4 with
  | none =>
    have hs : (mapEntry [ctTask] ctEntry4).isSome = true := by decide
    rw [hb] at hs
    simp at hs
  | some r =>
    have h := claim4_ground_truth [ctTask] ctEntry4 r ctTask (by decide) hb
    have hd : r.currentDueDate = none := h.1
    simp [hd]

/-- C5 counterexample: on `cText5`, strategy 1 produces the fenced span
(which fails to parse) even though strategy 2's match parses successfully;
the claim requires a later strategy to be attempted whenever an earlier one
fails to yield parseable JSON, but the pipeline parses only the first
*matching* strategy's span and degrades, never consulting strategy 2. -/
theorem claim5_counterexample :
    findJson cText5 = some (("\x7bbad\x7d"), ("```\x7bbad\x7d```")) ∧
    (parseJson (cleanJson ("\x7bbad\x7d"))).isSome = false ∧
    pat2Str cText5 = some ("\x7b\"recommendations\": []\x7d") ∧
    (parseJson (cleanJson ("\x7b\"recommendations\": []\x7d"))).isSome = true ∧
    extractRecommendations cText5 [] = ⟨cText5, [], ""⟩ :=
  ⟨by decide, by decide, by decide, by decide,
   extract_degrades _ _ (Or.inr ⟨(("\x7bbad\x7d"), ("```\x7bbad\x7d```")), by decide,
     Option.not_isSome_iff_eq_none.mp (by decide)⟩)⟩

/-- C5 (amended): the three strategies are tried in order until one yields a
*match* — pattern 1's result always wins, pattern 2 is consulted only when
pattern 1 has no match, pattern 3 only when neither earlier pattern matches —
and the first matching span is parsed exactly once: if its parse fails, the
extractor degrades to the raw-text result without attempting any later
strategy. -/
theorem claim5_strategy_order (text : String) (tasks : List Task) :
    (∀ r, pat1Str text = some r → findJson text = some r) ∧
    (pat1Str text = none → ∀ m, pat2Str text = some m → findJson text = some (m, m)) ∧
    (pat1Str text = none → pat2Str text = none → ∀ m, pat3Str text = some m →
      findJson text = some (m, m)) ∧
    (pat1Str text = none → pat2Str text = none → pat3Str text = none →
      findJson text = none) ∧
    (∀ s m, findJson text = some (s, m) → parseJson (cleanJson s) = none →
      extractRecommendations text tasks = ⟨text, [], ""⟩) := by
  refine ⟨?_, ?_, ?_, ?_, ?_⟩
  · intro r h
    simp [findJson, h]
  · intro h1 m h2
    simp [findJson, h1, h2]
  · intro h1 h2 m h3
    simp [findJson, h1, h2, h3]
  · intro h1 h2 h3
    simp [findJson, h1, h2, h3]
  · intro s m h hp
    exact extract_degrades text tasks (Or.inr ⟨(s, m), h, hp⟩)

theorem claim5_witness :
    findJson ("```\x7b\"recommendations\": []\x7d```") =
      some (("\x7b\"recommendations\": []\x7d"), ("```\x7b\"recommendations\": []\x7d```")) :=
  (claim5_strategy_order ("```\x7b\"recommendations\": []\x7d```") []).1 _ (by decide)

theorem selectCandidates_wtDone : selectCandidates [wtDone] (jsNumOr none 15) = [] := by
  have hf : List.filter isPendingOrInProgress [wtDone] = [] := by decide
  simp [selectCandidates, sortPending, hf, jsSliceEnd, jsNumOr]

theorem claim7_witness :
    selectCandidates [wtDone] (jsNumOr none 15) = [] ∧
    optimizeWorkload [wtDone] none none (fun _ => "ignored") =
      (⟨"No pending tasks found to optimize.", [], ""⟩, false) :=
  ⟨selectCandidates_wtDone,
   claim7_short_circuit _ none none _ selectCandidates_wtDone⟩

theorem step_notFound (userId : String) (st : List BTask) (rec : ApplyRec)
    (h : foundB userId st rec = false) :
    applyRecStep userId st rec = (st, 0, [notFoundMsg rec]) := by
  unfold applyRecStep
  cases hf : st.find? (fun t => t.id == rec.taskId && t.userId == userId) with
  | none => rfl
  | some t =>
    unfold foundB at h
    rw [hf] at h
    simp at h

theorem step_found_noop (userId : String) (st : List BTask) (rec : ApplyRec)
    (hdd : strTruthy rec.suggestedDueDate = false)
    (hsp : strTruthy rec.suggestedPriority = false)
    (h : foundB userId st rec = true) :
    applyRecStep userId st rec = (st, 0, []) := by
  unfold foundB at h
  obtain ⟨t, hf⟩ := Option.isSome_iff_exists.mp h
  unfold applyRecStep
  rw [hf]
  simp [hdd, hsp]

theorem step_found_upd (userId : String) (st : List BTask) (rec : ApplyRec)
    (hor : (strTruthy rec.suggestedDueDate || strTruthy rec.suggestedPriority) = true)
    (h : foundB userId st rec = true) :
    applyRecStep userId st rec = (updMap rec st, 1, []) := by
  unfold foundB at h
  obtain ⟨t, hf⟩ := Option.isSome_iff_exists.mp h
  unfold applyRecStep
  rw [hf]
  simp [hor]

theorem updMap_idOwner (rec : ApplyRec) (st : List BTask) :
    (updMap rec st).map idOwner = st.map idOwner := by
  unfold updMap
  rw [List.map_map]
  apply List.map_congr_left
  intro t _
  by_cases h : (t.id == rec.taskId) = true <;> simp [Function.comp, h, applyUpdate, idOwner]

theorem step_idOwner (userId : String) (st : List BTask) (rec : ApplyRec) :
    ((applyRecStep userId st rec).1).map idOwner = st.map idOwner := by
  cases hfb : foundB userId st rec with
  | false => rw [step_notFound userId st rec hfb]
  | true =>
    by_cases hor : (strTruthy rec.suggestedDueDate || strTruthy rec.suggestedPriority) = true
    · rw [step_found_upd userId st rec hor hfb]
      exact updMap_idOwner rec st
    · simp only [Bool.or_eq_true, not_or, Bool.not_eq_true] at hor
      rw [step_found_noop userId st rec hor.1 hor.2 hfb]

theorem foundB_eq_any (userId : String) (st : List BTask) (rec : ApplyRec) :
    foundB userId st rec = st.any (fun t => t.id == rec.taskId && t.userId == userId) := by
  rw [Bool.eq_iff_iff]
  simp [foundB, List.find?_isSome, List.any_eq_true]

theorem foundB_congr (userId : String) (l1 l2 : List BTask)
    (h : l1.map idOwner = l2.map idOwner) (rec : ApplyRec) :
    foundB userId l1 rec = foundB userId l2 rec := by
  rw [foundB_eq_any, foundB_eq_any, Bool.eq_iff_iff]
  simp only [List.any_eq_true]
  constructor
  · rintro ⟨t, ht, hp⟩
    obtain ⟨t2, ht2, he⟩ := List.mem_map.mp (h ▸ List.mem_map_of_mem idOwner ht)
    refine ⟨t2, ht2, ?_⟩
    have h1 : t2.id = t.id := congrArg Prod.fst he
    have h2 : t2.userId = t.userId := congrArg Prod.snd he
    rw [h1, h2]
    exact hp
  · rintro ⟨t, ht, hp⟩
    obtain ⟨t2, ht2, he⟩ := List.mem_map.mp (h.symm ▸ List.mem_map_of_mem idOwner ht)
    refine ⟨t2, ht2, ?_⟩
    have h1 : t2.id = t.id := congrArg Prod.fst he
    have h2 : t2.userId = t.userId := congrArg Prod.snd he
    rw [h1, h2]
    exact hp

theorem updCount_congr (userId : String) (l1 l2 : List BTask)
    (h : l1.map idOwner = l2.map idOwner) (recs : List ApplyRec) :
    updCount userId l1 recs = updCount userId l2 recs := by
  unfold updCount
  rw [List.filter_congr (fun r _ => by rw [foundB_congr userId l1 l2 h r])]

theorem errsOf_congr (userId : String) (l1 l2 : List BTask)
    (h : l1.map idOwner = l2.map idOwner) (recs : List ApplyRec) :
    errsOf userId l1 recs = errsOf userId l2 recs := by
  unfold errsOf
  rw [List.filter_congr (fun r _ => by rw [foundB_congr userId l1 l2 h r])]

theorem applyFold_spec (userId : String) (recs : List ApplyRec) :
    ∀ (st : List BTask) (n0 : Nat) (es0 : List String),
      ((recs.foldl (applyFoldStep userId) (st, n0, es0)).2.1 =
        n0 + updCount userId st recs) ∧
      ((recs.foldl (applyFoldStep userId) (st, n0, es0)).2.2 =
        es0 ++ errsOf userId st recs) ∧
      (((recs.foldl (applyFoldStep userId) (st, n0, es0)).1).map idOwner =
        st.map idOwner) := by
  induction recs with
  | nil =>
    intro st n0 es0
    simp [updCount, errsOf]
  | cons rec recs ih =>
    intro st n0 es0
    simp only [List.foldl_cons]
    cases hfb : foundB userId st rec with
    | false =>
      have hsf : applyFoldStep userId (st, n0, es0) rec = (st, n0 + 0, es0 ++ [notFoundMsg rec]) := by
        simp [applyFoldStep, step_notFound userId st rec hfb]
      rw [hsf]
      obtain ⟨ih1, ih2, ih3⟩ := ih st (n0 + 0) (es0 ++ [notFoundMsg rec])
      refine ⟨?_, ?_, ih3⟩
      · rw [ih1]
        simp [updCount, List.filter_cons, hfb]
      · rw [ih2]
        simp [errsOf, List.filter_cons, hfb]
    | true =>
      by_cases hor : (strTruthy rec.suggestedDueDate || strTruthy rec.suggestedPriority) = true
      · have hsf : applyFoldStep userId (st, n0, es0) rec = (updMap rec st, n0 + 1, es0 ++ []) := by
          simp [applyFoldStep, step_found_upd userId st rec hor hfb]
        rw [hsf]
        obtain ⟨ih1, ih2, ih3⟩ := ih (updMap rec st) (n0 + 1) (es0 ++ [])
        have hproj := updMap_idOwner rec st
        refine ⟨?_, ?_, ?_⟩
        · rw [ih1, updCount_congr userId _ _ hproj recs]
          simp [updCount, List.filter_cons, hfb, hor]
          omega
        · rw [ih2, errsOf_congr userId _ _ hproj recs]
          simp [errsOf, List.filter_cons, hfb, hor]
        · rw [ih3]
          exact hproj
      · simp only [Bool.or_eq_true, not_or, Bool.not_eq_true] at hor
        have hsf : applyFoldStep userId (st, n0, es0) rec = (st, n0 + 0, es0 ++ []) := by
          simp [applyFoldStep, step_found_noop userId st rec hor.1 hor.2 hfb]
        rw [hsf]
        obtain ⟨ih1, ih2, ih3⟩ := ih st (n0 + 0) (es0 ++ [])
        refine ⟨?_, ?_, ih3⟩
        · rw [ih1]
          simp [updCount, List.filter_cons, hfb, hor.1, hor.2]
        · rw [ih2]
          simp [errsOf, List.filter_cons, hfb]

theorem applyUpdate_dueDate_none (rec : ApplyRec) (t : BTask)
    (h : (applyUpdate rec t).dueDate = none) : t.dueDate = none := by
  by_cases hdd : strTruthy rec.suggestedDueDate <;> simp [applyUpdate, hdd] at h
  exact h

theorem applyFold_dueDate_none (userId : String) (recs : List ApplyRec) :
    ∀ (st : List BTask) (n0 : Nat) (es0 : List String) (i : Nat) (t2 : BTask),
      ((recs.foldl (applyFoldStep userId) (st, n0, es0)).1)[i]? = some t2 →
      t2.dueDate = none →
      (st[i]?).map (fun t => t.dueDate) = some none := by
  induction recs with
  | nil =>
    intro st n0 es0 i t2 h1 h2
    simp only [List.foldl_nil] at h1
    simp [h1, h2]
  | cons rec recs ih =>
    intro st n0 es0 i t2 h1 h2
    simp only [List.foldl_cons] at h1
    cases hfb : foundB userId st rec with
    | false =>
      rw [show applyFoldStep userId (st, n0, es0) rec = (st, n0 + 0, es0 ++ [notFoundMsg rec]) by
        simp [applyFoldStep, step_notFound userId st rec hfb]] at h1
      exact ih st (n0 + 0) (es0 ++ [notFoundMsg rec]) i t2 h1 h2
    | true =>
      by_cases hor : (strTruthy rec.suggestedDueDate || strTruthy rec.suggestedPriority) = true
      · rw [show applyFoldStep userId (st, n0, es0) rec = (updMap rec st, n0 + 1, es0 ++ []) by
          simp [applyFoldStep, step_found_upd userId st rec hor hfb]] at h1
        have hmid := ih (updMap rec st) (n0 + 1) (es0 ++ []) i t2 h1 h2
        unfold updMap at hmid
        rw [List.getElem?_map] at hmid
        cases hst : st[i]? with
        | none =>
          rw [hst] at hmid
          simp at hmid
        | some t =>
          rw [hst] at hmid
          have hmid2 : (if (t.id == rec.taskId) = true then applyUpdate rec t else t).dueDate =
              none := Option.some.inj hmid
          have ht : t.dueDate = none := by
            by_cases hid : (t.id == rec.taskId) = true
            · rw [if_pos hid] at hmid2
              exact applyUpdate_dueDate_none rec t hmid2
            · rw [if_neg hid] at hmid2
              exact hmid2
          exact congrArg some ht
      · simp only [Bool.or_eq_true, not_or, Bool.not_eq_true] at hor
        rw [show applyFoldStep userId (st, n0, es0) rec = (st, n0 + 0, es0 ++ []) by
          simp [applyFoldStep, step_found_noop userId st rec hor.1 hor.2 hfb]] at h1
        exact ih st (n0 + 0) (es0 ++ []) i t2 h1 h2

theorem applyFold_frame (userId : String) (recs : List ApplyRec) :
    ∀ (st : List BTask) (n0 : Nat) (es0 : List String) (i : Nat) (t : BTask),
      st[i]? = some t →
      (∀ r ∈ recs, foundB userId st r = false ∨ r.taskId ≠ t.id ∨
        (strTruthy r.suggestedDueDate = false ∧ strTruthy r.suggestedPriority = false)) →
      ((recs.foldl (applyFoldStep userId) (st, n0, es0)).1)[i]? = some t := by
  induction recs with
  | nil =>
    intro st n0 es0 i t h1 _
    simpa using h1
  | cons rec recs ih =>
    intro st n0 es0 i t h1 hcond
    simp only [List.foldl_cons]
    cases hfb : foundB userId st rec with
    | false =>
      rw [show applyFoldStep userId (st, n0, es0) rec = (st, n0 + 0, es0 ++ [notFoundMsg rec]) by
        simp [applyFoldStep, step_notFound userId st rec hfb]]
      exact ih st (n0 + 0) (es0 ++ [notFoundMsg rec]) i t h1
        (fun r hr => hcond r (List.mem_cons_of_mem rec hr))
    | true =>
      by_cases hor : (strTruthy rec.suggestedDueDate || strTruthy rec.suggestedPriority) = true
      · rw [show applyFoldStep userId (st, n0, es0) rec = (updMap rec st, n0 + 1, es0 ++ []) by
          simp [applyFoldStep, step_found_upd userId st rec hor hfb]]
        have hhead := hcond rec (List.mem_cons_self rec recs)
        have hor2 : strTruthy rec.suggestedDueDate = true ∨ strTruthy rec.suggestedPriority = true := by
          simpa using hor
        have hid : rec.taskId ≠ t.id := by
          rcases hhead with h | h | h
          · rw [hfb] at h
            exact absurd h (by simp)
          · exact h
          · rcases hor2 with hdd | hsp
            · rw [h.1] at hdd
              exact absurd hdd (by simp)
            · rw [h.2] at hsp
              exact absurd hsp (by simp)
        have hmap : (updMap rec st)[i]? = some t := by
          unfold updMap
          rw [List.getElem?_map, h1]
          have hfix : (if (t.id == rec.taskId) = true then applyUpdate rec t else t) = t := by
            rw [if_neg]
            simp only [beq_iff_eq]
            exact Ne.symm hid
          exact congrArg some hfix
        have hproj := updMap_idOwner rec st
        exact ih (updMap rec st) (n0 + 1) (es0 ++ []) i t hmap
          (fun r hr => by
            rw [foundB_congr userId (updMap rec st) st hproj r]
            exact hcond r (List.mem_cons_of_mem rec hr))
      · simp only [Bool.or_eq_true, not_or, Bool.not_eq_true] at hor
        rw [show applyFoldStep userId (st, n0, es0) rec = (st, n0 + 0, es0 ++ []) by
          simp [applyFoldStep, step_found_noop userId st rec hor.1 hor.2 hfb]]
        exact ih st (n0 + 0) (es0 ++ []) i t h1
          (fun r hr => hcond r (List.mem_cons_of_mem rec hr))

theorem updMap_getElem_proj {α : Type} (rec : ApplyRec) (st : List BTask) (i : Nat)
    (f : BTask → α) (hf : ∀ t, f (applyUpdate rec t) = f t) :
    (((updMap rec st)[i]?).map f) = ((st[i]?).map f) := by
  unfold updMap
  rw [List.getElem?_map]
  cases hst : st[i]? with
  | none => rfl
  | some t =>
    have hone : f (if (t.id == rec.taskId) = true then applyUpdate rec t else t) = f t := by
      by_cases hid : (t.id == rec.taskId) = true
      · rw [if_pos hid]
        exact hf t
      · rw [if_neg hid]
    exact congrArg some hone

/-- C8: an apply-endpoint update of an existing owned task is partial: with
no truthy `suggestedDueDate` the task's due date is untouched, with no truthy
`suggestedPriority` its priority is untouched, and every field other than
`dueDate` and `priority` — identifier, owner, title, description, status,
completion date, points, tags — is untouched in every case (stated
positionally over the store after one loop iteration). -/
theorem claim8_partial_update (userId : String) (st : List BTask) (rec : ApplyRec)
    (hfound : foundB userId st rec = true) (i : Nat) :
    ((applyRecStep userId st rec).1).length = st.length ∧
    (((applyRecStep userId st rec).1)[i]?).map (fun t => t.id) = (st[i]?).map (fun t => t.id) ∧
    (((applyRecStep userId st rec).1)[i]?).map (fun t => t.userId) = (st[i]?).map (fun t => t.userId) ∧
    (((applyRecStep userId st rec).1)[i]?).map (fun t => t.title) = (st[i]?).map (fun t => t.title) ∧
    (((applyRecStep userId st rec).1)[i]?).map (fun t => t.description) = (st[i]?).map (fun t => t.description) ∧
    (((applyRecStep userId st rec).1)[i]?).map (fun t => t.status) = (st[i]?).map (fun t => t.status) ∧
    (((applyRecStep userId st rec).1)[i]?).map (fun t => t.completedAt) = (st[i]?).map (fun t => t.completedAt) ∧
    (((applyRecStep userId st rec).1)[i]?).map (fun t => t.points) = (st[i]?).map (fun t => t.points) ∧
    (((applyRecStep userId st rec).1)[i]?).map (fun t => t.tags) = (st[i]?).map (fun t => t.tags) ∧
    (strTruthy rec.suggestedDueDate = false →
      (((applyRecStep userId st rec).1)[i]?).map (fun t => t.dueDate) =
        (st[i]?).map (fun t => t.dueDate)) ∧
    (strTruthy rec.suggestedPriority = false →
      (((applyRecStep userId st rec).1)[i]?).map (fun t => t.priority) =
        (st[i]?).map (fun t => t.priority)) := by
  by_cases hor : (strTruthy rec.suggestedDueDate || strTruthy rec.suggestedPriority) = true
  · rw [step_found_upd userId st rec hor hfound]
    refine ⟨by simp [updMap], ?_, ?_, ?_, ?_, ?_, ?_, ?_, ?_, ?_, ?_⟩
    · exact updMap_getElem_proj rec st i (fun t => t.id) (fun t => rfl)
    · exact updMap_getElem_proj rec st i (fun t => t.userId) (fun t => rfl)
    · exact updMap_getElem_proj rec st i (fun t => t.title) (fun t => rfl)
    · exact updMap_getElem_proj rec st i (fun t => t.description) (fun t => rfl)
    · exact updMap_getElem_proj rec st i (fun t => t.status) (fun t => rfl)
    · exact updMap_getElem_proj rec st i (fun t => t.completedAt) (fun t => rfl)
    · exact updMap_getElem_proj rec st i (fun t => t.points) (fun t => rfl)
    · exact updMap_getElem_proj rec st i (fun t => t.tags) (fun t => rfl)
    · intro hdd
      exact updMap_getElem_proj rec st i (fun t => t.dueDate) (fun t => by simp [applyUpdate, hdd])
    · intro hsp
      exact updMap_getElem_proj rec st i (fun t => t.priority) (fun t => by simp [applyUpdate, hsp])
  · simp only [Bool.or_eq_true, not_or, Bool.not_eq_true] at hor
    rw [step_found_noop userId st rec hor.1 hor.2 hfound]
    exact ⟨rfl, rfl, rfl, rfl, rfl, rfl, rfl, rfl, rfl, fun _ => rfl, fun _ => rfl⟩

theorem claim8_witness :
    (((applyRecStep ("u1") [wbTask] wbRecGood).1)[0]?).map (fun t => t.dueDate) =
      ((([wbTask] : List BTask)[0]?).map (fun t => t.dueDate)) ∧
    (((applyRecStep ("u1") [wbTask] wbRecGood).1)[0]?).map (fun t => t.title) =
      ((([wbTask] : List BTask)[0]?).map (fun t => t.title)) := by
  have h := claim8_partial_update ("u1") [wbTask] wbRecGood (by decide) 0
  exact ⟨h.2.2.2.2.2.2.2.2.2.1 (by decide), h.2.2.2.1⟩

/-- C9: over a whole batch, the returned error list is exactly one
`Task <id> not found` string per entry whose ownership-scoped lookup fails
(nonexistent id, or a task owned by a different user), in batch order; the
returned `updated` count is exactly the number of entries that updated a
task; no task's identity or ownership ever changes; and a task targeted by
no successful entry is left exactly in place — processing never aborts and
never fails atomically (the fold is total and per-item).  For the claim's
scenario — one existing owned task plus one nonexistent id — the witness
instantiates this to `updated = 1`, `errors = ["Task zz not found"]`. -/
theorem claim9_batch_isolation (userId : String) (st : List BTask) (recs : List ApplyRec) :
    (applyWorkload userId st recs).2.1 = updCount userId st recs ∧
    (applyWorkload userId st recs).2.2 = errsOf userId st recs ∧
    ((applyWorkload userId st recs).1).map idOwner = st.map idOwner ∧
    (∀ (i : Nat) (t : BTask), st[i]? = some t →
      (∀ r ∈ recs, foundB userId st r = false ∨ r.taskId ≠ t.id ∨
        (strTruthy r.suggestedDueDate = false ∧ strTruthy r.suggestedPriority = false)) →
      ((applyWorkload userId st recs).1)[i]? = some t) := by
  obtain ⟨h1, h2, h3⟩ := applyFold_spec userId recs st 0 []
  refine ⟨by simpa [applyWorkload] using h1, by simpa [applyWorkload] using h2,
    by simpa [applyWorkload] using h3, ?_⟩
  intro i t ht hcond
  exact applyFold_frame userId recs st 0 [] i t ht hcond

theorem claim9_witness :
    (applyWorkload ("u1") [wbTask] [wbRecGood, wbRecBad]).2.1 = 1 ∧
    (applyWorkload ("u1") [wbTask] [wbRecGood, wbRecBad]).2.2 = [("Task zz not found")] := by
  have h := claim9_batch_isolation ("u1") [wbTask] [wbRecGood, wbRecBad]
  refine ⟨?_, ?_⟩
  · rw [h.1]
    decide
  · rw [h.2.1]
    decide

/-- C10: an entry that resolves to an existing owned task but supplies
neither a truthy `suggestedDueDate` nor a truthy `suggestedPriority` is a
no-op: the loop iteration leaves the store unchanged, records no error, and
contributes nothing to the `updated` count (shown for the singleton batch);
moreover, across any batch, a task's due date can never be cleared — if a
task in the resulting store has no due date, it already had none. -/
theorem claim10_noop_entry (userId : String) (st : List BTask) (rec : ApplyRec)
    (recs : List ApplyRec)
    (hfound : foundB userId st rec = true)
    (hdd : strTruthy rec.suggestedDueDate = false)
    (hsp : strTruthy rec.suggestedPriority = false) :
    applyRecStep userId st rec = (st, 0, []) ∧
    applyWorkload userId st [rec] = (st, 0, []) ∧
    (∀ (i : Nat) (t2 : BTask), ((applyWorkload userId st recs).1)[i]? = some t2 →
      t2.dueDate = none →
      (st[i]?).map (fun t => t.dueDate) = some none) := by
  refine ⟨step_found_noop userId st rec hdd hsp hfound, ?_, ?_⟩
  · simp [applyWorkload, applyFoldStep, step_found_noop userId st rec hdd hsp hfound]
  · intro i t2 hsome hnone
    exact applyFold_dueDate_none userId recs st 0 [] i t2
      (by simpa [applyWorkload] using hsome) hnone

theorem claim10_witness :
    applyWorkload ("u1") [wbTask] [wbRecNoop] = ([wbTask], 0, []) :=
  (claim10_noop_entry ("u1") [wbTask] wbRecNoop [] (by decide) (by decide) (by decide)).2.1

theorem cmpTasks_le_iff (a b : Task) : cmpTasks a b ≤ 0 ↔ claimOrder a b := by
  unfold claimOrder
  by_cases hp : priorityRank b.priority - priorityRank a.priority = 0
  · have he : priorityRank b.priority = priorityRank a.priority := by omega
    have hnlt : ¬ priorityRank b.priority < priorityRank a.priority := by omega
    simp only [cmpTasks, hp]
    simp only [bne_self_eq_false, Bool.false_eq_true, if_false, he, hnlt, false_or,
      true_and, lt_self_iff_false]
    rcases a.dueDate with _ | u <;> rcases b.dueDate with _ | v <;> simp [dueLe] <;> omega
  · have hbne : ((priorityRank b.priority - priorityRank a.priority) != 0) = true := by
      simpa using hp
    simp only [cmpTasks, hbne, if_true]
    constructor
    · intro h
      left
      omega
    · rintro (h | ⟨heq, _⟩) <;> omega

theorem dueLe_trans (x y z : Option Int) : dueLe x y → dueLe y z → dueLe x z := by
  cases x <;> cases y <;> cases z <;> simp [dueLe] <;> omega

theorem dueLe_total (x y : Option Int) : dueLe x y ∨ dueLe y x := by
  cases x <;> cases y <;> simp [dueLe] <;> omega

theorem leTaskB_trans (a b c : Task) : leTaskB a b → leTaskB b c → leTaskB a c := by
  simp only [leTaskB, decide_eq_true_eq]
  rw [cmpTasks_le_iff, cmpTasks_le_iff, cmpTasks_le_iff]
  unfold claimOrder
  rintro (h1 | ⟨e1, d1⟩) (h2 | ⟨e2, d2⟩)
  · left
    omega
  · left
    omega
  · left
    omega
  · right
    exact ⟨by omega, dueLe_trans a.dueDate b.dueDate c.dueDate d1 d2⟩

theorem leTaskB_total (a b : Task) : leTaskB a b || leTaskB b a := by
  rw [Bool.or_eq_true]
  simp only [leTaskB, decide_eq_true_eq]
  rw [cmpTasks_le_iff, cmpTasks_le_iff]
  unfold claimOrder
  rcases lt_trichotomy (priorityRank b.priority) (priorityRank a.priority) with h | h | h
  · left
    left
    exact h
  · rcases dueLe_total a.dueDate b.dueDate with hd | hd
    · left
      right
      exact ⟨h, hd⟩
    · right
      right
      exact ⟨h.symm, hd⟩
  · right
    left
    exact h

theorem jsSliceEnd_sublist (l : List α) (e : Int) : (jsSliceEnd l e).Sublist l := by
  unfold jsSliceEnd
  split <;> exact List.take_sublist _ _

theorem sortPending_sorted (tasks : List Task) :
    (sortPending tasks).Pairwise (fun a b => leTaskB a b) :=
  List.sorted_mergeSort (fun a b c => leTaskB_trans a b c) (fun a b => leTaskB_total a b) _

/-- C6: the candidate list is selected by filtering to pending/in-progress
tasks, stable-sorting by priority descending with ties broken by ascending
due date (any due date before none), and truncating to the first `maxTasks`
elements: every selected task is pending or in-progress; the selection is
pairwise in the claimed order; the sort permutes exactly the filtered tasks;
for a nonnegative bound the truncation is a plain `take`; and the sort is
stable — two equally-ordered tasks (comparator 0) that appear in input order
in the filtered list appear in that same order in the sorted list.
Determinism is inherent: the selection is a function of its inputs. -/
theorem claim6_candidate_selection (tasks : List Task) (mt : Int) :
    (∀ t ∈ selectCandidates tasks mt,
      t.status = TaskStatus.pending ∨ t.status = TaskStatus.inProgress) ∧
    (selectCandidates tasks mt).Pairwise claimOrder ∧
    (sortPending tasks).Perm (tasks.filter isPendingOrInProgress) ∧
    (0 ≤ mt → selectCandidates tasks mt = (sortPending tasks).take mt.toNat) ∧
    (∀ a b : Task, cmpTasks a b = 0 →
      [a, b].Sublist (tasks.filter isPendingOrInProgress) →
      [a, b].Sublist (sortPending tasks)) := by
  refine ⟨?_, ?_, List.mergeSort_perm _ _, ?_, ?_⟩
  · intro t ht
    have h1 : t ∈ sortPending tasks := (jsSliceEnd_sublist _ _).subset ht
    have h2 : t ∈ tasks.filter isPendingOrInProgress := by
      unfold sortPending at h1
      exact List.mem_mergeSort.mp h1
    have h3 : isPendingOrInProgress t = true := (List.mem_filter.mp h2).2
    unfold isPendingOrInProgress at h3
    simpa [Bool.or_eq_true, beq_iff_eq] using h3
  · have hs := sortPending_sorted tasks
    have hsub : (selectCandidates tasks mt).Sublist (sortPending tasks) :=
      jsSliceEnd_sublist _ _
    exact (List.Pairwise.sublist hsub hs).imp
      (fun hab => (cmpTasks_le_iff _ _).mp (by simpa [leTaskB] using hab))
  · intro hmt
    unfold selectCandidates jsSliceEnd
    rw [if_neg (by omega)]
  · intro a b hab hsub
    have hpair : List.Pairwise (fun x y => leTaskB x y) [a, b] := by
      simp [List.pairwise_cons, leTaskB, hab]
    exact List.sublist_mergeSort (fun x y z => leTaskB_trans x y z)
      (fun x y => leTaskB_total x y) hpair hsub

theorem claim6_witness :
    selectCandidates demoTasks 2 = (sortPending demoTasks).take ((2 : Int)).toNat ∧
    [demoTaskX, demoTaskY].Sublist (sortPending demoTasks) := by
  have h := claim6_candidate_selection demoTasks 2
  exact ⟨h.2.2.2.1 (by decide), h.2.2.2.2 demoTaskX demoTaskY (by decide) (by decide)⟩

end LvlAi
